import Mathlib

/-!
Shallow embedding of `src/mb_src/parse_form_html.py` (class `GenericFormParser`)
and verification of the specification's claims about it.

Conventions of the embedding:
* Python strings become Lean `String`s (internally worked on as `List Char`).
* `str.strip()` becomes `pyStrip` (ASCII whitespace, matching Python's `\s` class
  for the inputs at hand).
* Each Python `re` use is translated into an explicit matching function with the
  same leftmost / greedy semantics for the concrete pattern involved;
  `\d` and `\s` are read as their ASCII classes.
* Code that can raise (`table.find('tr')` returning `None` followed by
  `.find_all('td')`) is modelled with `Option`: `none` is the `AttributeError`.
* The instance attribute `self.form_data` (which `parse_html` appends to and
  returns) is modelled as an explicit `formData` argument of `parse_html`; a
  freshly constructed parser corresponds to `formData = []`.
-/

/-- Python `\s` on ASCII: the whitespace characters `str.strip()` removes. -/
def isPySpace (c : Char) : Bool :=
  c = ' ' || c = '\t' || c = '\n' || c = '\r' || c = '\x0b' || c = '\x0c'

/-- `str.strip()`. -/
def pyStrip (s : String) : String :=
  (((s.toList.dropWhile isPySpace).reverse.dropWhile isPySpace).reverse).asString

/-- Matcher for `re.match(r'^(\d+)\.?\s+(.+)', text)` on an already-stripped
`text` (both call sites in `process_form_field` strip first, so the string
neither starts nor ends with whitespace): returns `(group(1), group(2))`, where
`group(2)` runs up to the first newline (Python `.` does not cross `\n`). -/
def matchNumbered (text : String) : Option (String × String) :=
  let cs := text.toList
  let ds := cs.takeWhile Char.isDigit
  if ds.isEmpty then none
  else
    let r1 := cs.drop ds.length
    let r2 := match r1 with
      | '.' :: t => t
      | _ => r1
    let ws := r2.takeWhile isPySpace
    if ws.isEmpty then none
    else
      let r3 := r2.drop ws.length
      let body := r3.takeWhile (fun c => c != '\n')
      if body.isEmpty then none else some (ds.asString, body.asString)

/-- Tail of the currency shape after its leading digit group:
`(?:,\d{3})*(?:\.\d+)?` anchored to the end of the remaining characters. -/
def amtTail : List Char → Bool
  | [] => true
  | ',' :: a :: b :: c :: rest => a.isDigit && b.isDigit && c.isDigit && amtTail rest
  | '.' :: d :: rest => d.isDigit && rest.all Char.isDigit
  | _ => false

/-- Full match of `\d{1,3}(?:,\d{3})*(?:\.\d+)?` against the whole character
list (the `$`-anchored search in `process_form_field` needs exactly this on
each suffix of the text). -/
def isAmountStr : List Char → Bool
  | [] => false
  | a :: rest =>
      a.isDigit &&
        (amtTail rest ||
          (match rest with
           | [] => false
           | b :: rest2 =>
               b.isDigit &&
                 (amtTail rest2 ||
                   (match rest2 with
                    | [] => false
                    | c :: rest3 => c.isDigit && amtTail rest3))))

/-- `re.search(r'\d{1,3}(?:,\d{3})*(?:\.\d+)?$', text)`: the leftmost start
position whose suffix fully matches the currency shape. -/
def findAmountSuffix : List Char → Option String
  | [] => none
  | c :: rest =>
      if isAmountStr (c :: rest) then some (c :: rest).asString
      else findAmountSuffix rest

/-- `re.search(r'\(([^)]+)\)', field_text)`: leftmost `(`, at least one
non-`)` character, then `)`; returns `group(1)`. -/
def findNote : List Char → Option String
  | [] => none
  | c :: rest =>
      if c = '(' then
        let inner := rest.takeWhile (fun x => x != ')')
        if inner.isEmpty then findNote rest
        else if (rest.drop inner.length).isEmpty then findNote rest
        else some inner.asString
      else findNote rest

/-- `text.split(':', 1)[0]`. -/
def beforeColon (cs : List Char) : List Char := cs.takeWhile (fun c => c != ':')

/-- `text.split(':', 1)[1]` (caller guarantees a colon is present). -/
def afterColon (cs : List Char) : List Char := (cs.dropWhile (fun c => c != ':')).drop 1

/-- `':' in text` (Python containment of a one-character string). -/
def hasColon (text : String) : Bool := text.toList.any (fun c => c = ':')

/-- `GenericFormParser.extract_field_value`. -/
def extract_field_value (text : String) : String :=
  if hasColon text then pyStrip (afterColon text.toList).asString else pyStrip text

/-- One attempt of `re.search(r'\d{3}-\d{2}-\d{4}', text)` at the current
position. -/
def ssnAt : List Char → Option String
  | a :: b :: c :: d :: e :: f :: g :: h :: i :: j :: k :: _ =>
      if a.isDigit && b.isDigit && c.isDigit && d = '-' && e.isDigit && f.isDigit
          && g = '-' && h.isDigit && i.isDigit && j.isDigit && k.isDigit then
        some ([a, b, c, d, e, f, g, h, i, j, k]).asString
      else none
  | _ => none

/-- Leftmost SSN-shaped match. -/
def ssnScan : List Char → String
  | [] => ""
  | c :: rest =>
      match ssnAt (c :: rest) with
      | some m => m
      | none => ssnScan rest

/-- `GenericFormParser.extract_ssn`: returns the match or `""`. -/
def extract_ssn (text : String) : String := ssnScan text.toList

/-- Greedy `(?:,\d{3})*`: the consumed characters. -/
def takeCommaGroups : List Char → List Char
  | ',' :: a :: b :: c :: rest =>
      if a.isDigit && b.isDigit && c.isDigit then
        ',' :: a :: b :: c :: takeCommaGroups rest
      else []
  | _ => []

/-- Greedy `(?:\.\d+)?`: the consumed characters. -/
def takeDecimal : List Char → List Char
  | '.' :: rest =>
      let ds := rest.takeWhile Char.isDigit
      if ds.isEmpty then [] else '.' :: ds
  | _ => []

/-- Greedy match of `\d{1,3}(?:,\d{3})*(?:\.\d+)?` starting here (no `$`
anchor, so plain greedy consumption is the regex semantics). -/
def amtCore (cs : List Char) : Option (List Char) :=
  let d := (cs.takeWhile Char.isDigit).take 3
  if d.isEmpty then none
  else
    let r1 := cs.drop d.length
    let g := takeCommaGroups r1
    let r2 := r1.drop g.length
    some (d ++ g ++ takeDecimal r2)

/-- One attempt of `re.search(r'\$?\d{1,3}(?:,\d{3})*(?:\.\d+)?', text)` at the
current position (a lone `$` not followed by a digit does not match). -/
def amtAt : List Char → Option String
  | '$' :: rest => (amtCore rest).map (fun m => ('$' :: m).asString)
  | cs => (amtCore cs).map List.asString

/-- Leftmost currency-shaped match. -/
def amtScan : List Char → String
  | [] => ""
  | c :: rest =>
      match amtAt (c :: rest) with
      | some m => m
      | none => amtScan rest

/-- `GenericFormParser.extract_amount`: returns the match or `""`. -/
def extract_amount (text : String) : String := amtScan text.toList

/-- Roman-numeral characters accepted by `[IVX]+`. -/
def romanChar (c : Char) : Bool := c = 'I' || c = 'V' || c = 'X'

/-- Attempt of the suffix part of `re.match(r'.*Part\s+([IVX]+)(?:\s*[-–]?\s*)?(.+)?', text)`
at the current position: literal `Part`, one or more whitespace characters,
one or more roman-numeral characters (greedy), the optional separator
(`\s*`, one optional dash, `\s*`), then `group(2)` up to the first newline
(already combined with the `group(2).strip() if match.group(2) else ""`
post-processing done by `extract_section_title`). -/
def sectionMatchAt : List Char → Option (String × String)
  | 'P' :: 'a' :: 'r' :: 't' :: rest =>
      let ws := rest.takeWhile isPySpace
      if ws.isEmpty then none
      else
        let r2 := rest.drop ws.length
        let rn := r2.takeWhile romanChar
        if rn.isEmpty then none
        else
          let r3 := r2.drop rn.length
          let r4 := r3.dropWhile isPySpace
          let r5 := match r4 with
            | '-' :: t => t
            | '–' :: t => t
            | _ => r4
          let r6 := r5.dropWhile isPySpace
          let sub := r6.takeWhile (fun c => c != '\n')
          some (rn.asString, pyStrip sub.asString)
  | _ => none

/-- The greedy `.*` prefix of the section-title regex: try positions from the
right (latest `Part` occurrence first); a position is reachable only if no
newline precedes it (`.` does not cross `\n`). -/
def scanPart : List Char → Option (String × String)
  | [] => none
  | c :: rest =>
      if c = '\n' then none
      else
        match scanPart rest with
        | some r => some r
        | none => sectionMatchAt (c :: rest)

/-- `'Part' in text` (Python substring containment). -/
def hasPart : List Char → Bool
  | [] => false
  | c :: rest =>
      (match c :: rest with
       | 'P' :: 'a' :: 'r' :: 't' :: _ => true
       | _ => false) || hasPart rest

/-- `GenericFormParser.extract_section_title` applied to the element's raw
text: strips, requires the literal `Part`, runs the regex, and returns
`("Part " ++ group(1), subtitle)`; `none` models the Python `(None, None)`. -/
def extract_section_title (raw : String) : Option (String × String) :=
  let text := pyStrip raw
  if hasPart text.toList then
    match scanPart text.toList with
    | some (rn, sub) => some ("Part " ++ rn, sub)
    | none => none
  else none

/-- The block-element tag kinds collected by
`soup.find_all(['p', 'div', 'table', 'li', 'span'])`. -/
inductive Tag
  | p
  | div
  | tbl
  | li
  | span
deriving DecidableEq

/-- `prev_element.name in ['p', 'div', 'li']`. -/
def ctxTag : Tag → Bool
  | .p => true
  | .div => true
  | .li => true
  | _ => false

/-- `re.match(r'^\d+\.?\s*$', text)` on an already-stripped `text`: one or
more digits, an optional dot, then only whitespace to the end. -/
def isBareNumber (s : String) : Bool :=
  let cs := s.toList
  let ds := cs.takeWhile Char.isDigit
  if ds.isEmpty then false
  else
    let r := cs.drop ds.length
    let r2 := match r with
      | '.' :: t => t
      | _ => r
    r2.all isPySpace

/-- `s.startswith('□')`. -/
def startsSquare (s : String) : Bool :=
  match s.toList with
  | c :: _ => c = '□'
  | [] => false

/-- The filter applied to a preceding sibling inside
`extract_table_context`'s loop body: kept iff its tag is `p`/`div`/`li`, its
stripped text is non-empty, does not start with `□`, and is not a bare
numeric label. -/
def qualifies (tg : Tag) (raw : String) : Bool :=
  ctxTag tg && !(pyStrip raw).isEmpty && !startsSquare (pyStrip raw)
    && !isBareNumber (pyStrip raw)

/-- The `while prev_element and len(context) < 3` collection loop: siblings
are supplied nearest-first (the `find_previous_sibling` chain); collected
texts are accumulated in collection order. -/
def collectCtx : List (Tag × String) → List String → List String
  | [], acc => acc
  | (tg, tx) :: rest, acc =>
      if 3 ≤ acc.length then acc
      else if qualifies tg tx then collectCtx rest (acc ++ [pyStrip tx])
      else collectCtx rest acc

/-- `' '.join(l)`. -/
def joinSp : List String → String
  | [] => ""
  | [s] => s
  | s :: rest => s ++ " " ++ joinSp rest

/-- `GenericFormParser.extract_table_context`: collect backward, present
forward (`' '.join(reversed(context))`). -/
def extract_table_context (sibs : List (Tag × String)) : String :=
  joinSp (collectCtx sibs []).reverse

/-- The classification record returned by `process_form_field` (the Python
dict `{'type': 'form_field', 'number': …, 'text': …, 'value': …, 'note': …}`;
the colon-fallback branch, which omits the `'note'` key, is modelled with
`note := none`). -/
structure FormFieldData where
  number : String
  text : String
  value : Option String
  note : Option String
deriving DecidableEq

/-- `GenericFormParser.process_form_field` applied to the element's raw text. -/
def process_form_field (raw : String) : Option FormFieldData :=
  let text := pyStrip raw
  match matchNumbered text with
  | some (num, rest) =>
      let fieldText := pyStrip rest
      some { number := num
             text := fieldText
             value := findAmountSuffix text.toList
             note := findNote fieldText.toList }
  | none =>
      if hasColon text then
        let key := pyStrip (beforeColon text.toList).asString
        let val := pyStrip (afterColon text.toList).asString
        match matchNumbered key with
        | some (num, rest) =>
            some { number := num, text := pyStrip rest, value := some val, note := none }
        | none => none
      else none

/-- A cell of the HTML table: a `th` (header) or `td` element with its text. -/
structure HtmlCell where
  isHeader : Bool
  text : String
deriving DecidableEq

/-- An HTML table as the list of its `tr` rows, each a list of cells in
document order. -/
structure HtmlTable where
  trs : List (List HtmlCell)
deriving DecidableEq

/-- `table.find_all('th')`: all header cells in document order. -/
def thCells (t : HtmlTable) : List HtmlCell :=
  (t.trs.map (fun r => r.filter (fun c => c.isHeader))).flatten

/-- `row.find_all('td')`. -/
def tdCellsOf (r : List HtmlCell) : List HtmlCell :=
  r.filter (fun c => !c.isHeader)

/-- One cell of the produced table record: `{'value': …, 'header': …}`. -/
structure CellData where
  value : String
  header : Option String
deriving DecidableEq

/-- One produced row: `{'cells': […]}`. -/
structure RowData where
  cells : List CellData
deriving DecidableEq

/-- The produced table record
`{'type': 'table', 'context': …, 'headers': …, 'rows': …}`. -/
structure TableData where
  context : String
  headers : List String
  rows : List RowData
deriving DecidableEq

/-- The `for i, cell in enumerate(cells)` loop of `process_table`: keep a cell
iff its stripped text is non-empty, pairing it with `header_texts[i]` when the
original cell index `i` is in range and `None` otherwise. -/
def pairCells (hs : List String) (i : Nat) : List HtmlCell → List CellData
  | [] => []
  | c :: rest =>
      let v := pyStrip c.text
      if v.isEmpty then pairCells hs (i + 1) rest
      else { value := v, header := hs.get? i } :: pairCells hs (i + 1) rest

/-- One data row of `process_table`. -/
def buildRow (hs : List String) (r : List HtmlCell) : RowData :=
  ⟨pairCells hs 0 (tdCellsOf r)⟩

/-- `GenericFormParser.process_table`. `none` models the `AttributeError`
raised by `table.find('tr').find_all('td')` when the table has no `th` cell
and no `tr` row (`find('tr')` is `None`). -/
def process_table (prevSibs : List (Tag × String)) (t : HtmlTable) : Option TableData :=
  let ctx := extract_table_context prevSibs
  match (if (thCells t).isEmpty then (t.trs.head?).map tdCellsOf else some (thCells t)) with
  | none => none
  | some hcs =>
      let headerTexts := hcs.map (fun c => pyStrip c.text)
      let dataRows := if hcs.isEmpty then t.trs else t.trs.drop 1
      some { context := ctx
             headers := headerTexts
             rows := (dataRows.map (buildRow headerTexts)).filter (fun rd => !rd.cells.isEmpty) }

/-- A block element of the input stream: its tag kind, raw text, table content
(meaningful when `tag = tbl`), and its preceding siblings nearest-first (the
data `extract_table_context` walks). -/
structure Element where
  tag : Tag
  text : String
  table : HtmlTable
  prev : List (Tag × String)
deriving DecidableEq

/-- A member of a section's `fields` list. -/
inductive FieldEntry
  | formField : FormFieldData → FieldEntry
  | tableRec : TableData → FieldEntry
deriving DecidableEq

/-- A section dict `{'type': 'section', 'title': …, 'subtitle': …, 'fields': […]}`. -/
structure SectionData where
  title : String
  subtitle : String
  fields : List FieldEntry
deriving DecidableEq

/-- A top-level entry of the returned document. The Python value is an
untyped dict; `main` itself dispatches on top-level `'section'`,
`'form_field'` and `'table'` entries, so all three shapes are representable. -/
inductive Entry
  | sect : SectionData → Entry
  | bareField : FormFieldData → Entry
  | bareTable : TableData → Entry
deriving DecidableEq

/-- The emission guard
`current_section_data and (current_section_data['fields'] or current_section_data['title'] != 'Part I')`
(`current_section_data` is never `None` after initialization). -/
def keepSection (s : SectionData) : Bool :=
  !s.fields.isEmpty || s.title != "Part I"

/-- One iteration of the second-pass loop of `parse_html`: the state is the
in-progress section together with the accumulated `self.form_data`. `none`
models an exception propagating out of `process_table`. -/
def step (st : SectionData × List Entry) (e : Element) : Option (SectionData × List Entry) :=
  let cur := st.1
  let out := st.2
  if (pyStrip e.text).isEmpty then some st
  else
    match extract_section_title e.text with
    | some (title, sub) =>
        some (⟨title, sub, []⟩, if keepSection cur then out ++ [Entry.sect cur] else out)
    | none =>
        if e.tag = Tag.tbl then
          match process_table e.prev e.table with
          | none => none
          | some td =>
              if td.rows.isEmpty then some st
              else some (⟨cur.title, cur.subtitle, cur.fields ++ [FieldEntry.tableRec td]⟩, out)
        else
          match process_form_field e.text with
          | some f => some (⟨cur.title, cur.subtitle, cur.fields ++ [FieldEntry.formField f]⟩, out)
          | none => some st

/-- The second-pass loop over the buffered elements. -/
def runElems : SectionData × List Entry → List Element → Option (SectionData × List Entry)
  | st, [] => some st
  | st, e :: rest =>
      match step st e with
      | none => none
      | some st2 => runElems st2 rest

/-- `GenericFormParser.parse_html`: first pass keeps the elements with
non-empty stripped text, the second pass runs the state machine starting from
the synthetic default section `Part I`, and the final guard appends the last
section. `formData` is the `self.form_data` the instance holds on entry
(`[]` for a freshly constructed parser). -/
def parse_html (els : List Element) (formData : List Entry) : Option (List Entry) :=
  let kept := els.filter (fun e => !(pyStrip e.text).isEmpty)
  match runElems (⟨"Part I", "", []⟩, formData) kept with
  | none => none
  | some (cur, out) => some (if keepSection cur then out ++ [Entry.sect cur] else out)

/-- Number of fields/tables a top-level entry contributes to the flattened
count. -/
def entryFieldCount : Entry → Nat
  | .sect s => s.fields.length
  | .bareField _ => 1
  | .bareTable _ => 1

/-- Flattened count of fields and tables in a document. -/
def docFieldCount (doc : List Entry) : Nat :=
  (doc.map entryFieldCount).sum

/-- Number of block elements with non-empty stripped text in the input. -/
def nonEmptyCount (els : List Element) : Nat :=
  (els.filter (fun e => !(pyStrip e.text).isEmpty)).length

/-! ## Claim C1 -/

/-- C1, counterexample: on the text `"2. Add the amounts 31,450"` the
classifier does *not* return description `"Add the amounts"` — the trailing
amount digits stay inside the description (`field_text` is `group(2)`
stripped, and the code never removes the matched amount from it). -/
theorem C1_counterexample :
    (process_form_field "2. Add the amounts 31,450").map FormFieldData.text ≠
      some "Add the amounts" := by decide

/-- C1, amended: on `"2. Add the amounts 31,450"` the classifier returns
ordinal `"2"`, amount exactly `"31,450"`, and description
`"Add the amounts 31,450"` — the whole rest of the text, amount digits
included. -/
theorem C1_amended_field :
    process_form_field "2. Add the amounts 31,450" =
      some ⟨"2", "Add the amounts 31,450", some "31,450", none⟩ := by decide

/-! ## Claim C2 -/

/-- C2: a table element with no `th` cell and no `tr` row but non-empty text
makes `process_table` raise (`table.find('tr')` is `None`, then
`.find_all('td')` is an `AttributeError`, modelled by `none`), and the
exception propagates out of `parse_html`; the table is *not* treated as empty
and discarded. -/
theorem C2_malformed_table_raises :
    process_table [] ⟨[]⟩ = none ∧
      parse_html [⟨Tag.tbl, "spacer", ⟨[]⟩, []⟩] [] = none := by decide

/-! ## Claim C3 -/

/-- C3, counterexample: parsing the one-element document
`["1. Pay 100"]` on a fresh parser yields one section, but running the same
parse again on the *same* parser instance (whose `form_data` now holds the
first result) returns the first result concatenated with the second — state
from the earlier invocation leaks into the later result. -/
theorem C3_counterexample :
    parse_html [⟨Tag.p, "1. Pay 100", ⟨[]⟩, []⟩] [] =
      some [Entry.sect ⟨"Part I", "", [FieldEntry.formField ⟨"1", "Pay 100", some "100", none⟩]⟩] ∧
    parse_html [⟨Tag.p, "1. Pay 100", ⟨[]⟩, []⟩]
        [Entry.sect ⟨"Part I", "", [FieldEntry.formField ⟨"1", "Pay 100", some "100", none⟩]⟩] ≠
      parse_html [⟨Tag.p, "1. Pay 100", ⟨[]⟩, []⟩] [] := by decide

/-- `step` only ever appends to the accumulated `form_data`: prefixing the
accumulator commutes with one step. -/
theorem step_out_append (init : List Entry) (cur : SectionData) (out : List Entry)
    (e : Element) :
    step (cur, init ++ out) e = (step (cur, out) e).map (fun p => (p.1, init ++ p.2)) := by
  unfold step
  by_cases h1 : (pyStrip e.text).isEmpty
  · simp [h1]
  · simp only [h1, Bool.false_eq_true, if_false]
    cases hsec : extract_section_title e.text with
    | some ts =>
        obtain ⟨t, s⟩ := ts
        by_cases hk : keepSection cur <;> simp [hk, List.append_assoc]
    | none =>
        by_cases htag : e.tag = Tag.tbl
        · simp only [htag, if_true]
          cases hpt : process_table e.prev e.table with
          | none => simp
          | some td => by_cases hr : td.rows.isEmpty <;> simp [hr]
        · simp only [htag, if_false]
          cases hff : process_form_field e.text <;> simp

/-- The whole second pass only ever appends to the accumulated `form_data`. -/
theorem runElems_out_append (init : List Entry) :
    ∀ (l : List Element) (cur : SectionData) (out : List Entry),
    runElems (cur, init ++ out) l = (runElems (cur, out) l).map (fun p => (p.1, init ++ p.2))
  | [], cur, out => by simp [runElems]
  | e :: rest, cur, out => by
      simp only [runElems, step_out_append]
      cases hs : step (cur, out) e with
      | none => simp
      | some st2 =>
          obtain ⟨c2, o2⟩ := st2
          simpa using runElems_out_append init rest c2 o2

/-- C3, amended: `self.form_data` persists across invocations, so re-parsing
on a used instance returns the old entries followed by the new document; only
a freshly constructed parser (`formData = []`) returns the new document
alone. -/
theorem C3_amended_accumulates (els : List Element) (init : List Entry) :
    parse_html els init = (parse_html els []).map (fun doc => init ++ doc) := by
  unfold parse_html
  dsimp only
  have h := runElems_out_append init (els.filter (fun e => !(pyStrip e.text).isEmpty))
    ⟨"Part I", "", []⟩ []
  rw [List.append_nil] at h
  rw [h]
  cases runElems (⟨"Part I", "", []⟩, ([] : List Entry))
      (els.filter (fun e => !(pyStrip e.text).isEmpty)) with
  | none => rfl
  | some p =>
      obtain ⟨cur, out⟩ := p
      by_cases hk : keepSection cur <;> simp [hk, List.append_assoc]

/-! ## Claim C4 -/

/-- C4, counterexample: an element whose text is `"123-45-6789"` is not
classified as anything — `parse_html` drops it and the returned document is
empty (no `Identifier` entry anywhere); moreover the premise that no other
pattern matches is false: the amount regex of `extract_amount` does match this
text, on its leading digit run `"123"`. -/
theorem C4_counterexample :
    parse_html [⟨Tag.p, "123-45-6789", ⟨[]⟩, []⟩] [] = some [] ∧
      extract_amount "123-45-6789" = "123" := by decide

/-- C4, amended: the standalone helper `extract_ssn` does extract the full
string `"123-45-6789"` (not the leading run `"123"`), but `parse_html` never
invokes `extract_ssn` or `extract_amount`: the element is silently dropped
and no entry for it appears in the document. -/
theorem C4_amended_ssn :
    extract_ssn "123-45-6789" = "123-45-6789" ∧
      parse_html [⟨Tag.span, "123-45-6789", ⟨[]⟩, []⟩] [] = some [] := by decide

/-! ## Claim C5 -/

/-- The collection loop stops as soon as three texts are collected. -/
theorem collectCtx_full (l : List (Tag × String)) (acc : List String)
    (h : 3 ≤ acc.length) : collectCtx l acc = acc := by
  cases l with
  | nil => rfl
  | cons p rest =>
      obtain ⟨tg, tx⟩ := p
      simp [collectCtx, h]

/-- C5: with the preceding siblings supplied nearest-first, a table preceded
(in document order) by three qualifying elements `P1, P2, P3` gets the context
`"P1 P2 P3"` — their stripped texts joined with single spaces in forward
document order, at most three collected, any further siblings ignored. -/
theorem C5_forward_context (tg1 tg2 tg3 : Tag) (t1 t2 t3 : String)
    (rest : List (Tag × String))
    (h1 : qualifies tg1 t1 = true) (h2 : qualifies tg2 t2 = true)
    (h3 : qualifies tg3 t3 = true) :
    extract_table_context ((tg3, t3) :: (tg2, t2) :: (tg1, t1) :: rest) =
      pyStrip t1 ++ " " ++ (pyStrip t2 ++ " " ++ pyStrip t3) := by
  unfold extract_table_context
  simp [collectCtx, h1, h2, h3, collectCtx_full, joinSp]

/-- C5 witness at the concrete input of the spec's example. -/
theorem C5_forward_context_wit :
    extract_table_context [(Tag.li, "P3"), (Tag.div, "P2"), (Tag.p, "P1")] = "P1 P2 P3" := by
  have h := C5_forward_context Tag.p Tag.div Tag.li "P1" "P2" "P3" []
    (by decide) (by decide) (by decide)
  exact h.trans (by decide)

/-! ## Claim C6 -/

/-- C6, counterexample: in a table whose first row is a data row
`[td "a"]` and whose `th` cell sits in the *second* row, the code still
excludes the first row from the data rows (the `[1:]` slice applies whenever
the header cell list is non-empty, not only in the no-`th` fallback), so the
cell `"a"` is lost. -/
theorem C6_counterexample :
    process_table [] ⟨[[⟨false, "a"⟩], [⟨true, "H"⟩], [⟨false, "b"⟩]]⟩ =
      some ⟨"", ["H"], [⟨[⟨"b", some "H"⟩]⟩]⟩ := by decide

/-- C6, amended: (a) whenever the table has explicit `th` cells anywhere,
those (stripped) become the headers and the data rows are *all rows but the
first* (`find_all('tr')[1:]` applies because the header cell list is
non-empty, not only in the first-row fallback); (b) with no `th` cell, the
first row's `td` cells (stripped) become the headers, and if that row has at
least one `td` the first row is likewise excluded from the data rows; (c) all
rows are used as data rows only when there is no `th` cell and the first row
has no `td` cell (headers then empty); and (d) a table whose interpreted row
list came out empty leaves the parse state unchanged, so it is absent from
the document. -/
theorem C6_amended_headers :
    (∀ (prev : List (Tag × String)) (t : HtmlTable), (thCells t).isEmpty = false →
      process_table prev t =
        some ⟨extract_table_context prev,
              (thCells t).map (fun c => pyStrip c.text),
              (((t.trs.drop 1).map
                  (buildRow ((thCells t).map (fun c => pyStrip c.text)))).filter
                (fun rd => !rd.cells.isEmpty))⟩) ∧
    (∀ (prev : List (Tag × String)) (r : List HtmlCell) (rs : List (List HtmlCell)),
      (thCells ⟨r :: rs⟩).isEmpty = true → (tdCellsOf r).isEmpty = false →
      process_table prev ⟨r :: rs⟩ =
        some ⟨extract_table_context prev,
              (tdCellsOf r).map (fun c => pyStrip c.text),
              ((rs.map (buildRow ((tdCellsOf r).map (fun c => pyStrip c.text)))).filter
                (fun rd => !rd.cells.isEmpty))⟩) ∧
    (∀ (prev : List (Tag × String)) (r : List HtmlCell) (rs : List (List HtmlCell)),
      (thCells ⟨r :: rs⟩).isEmpty = true → (tdCellsOf r).isEmpty = true →
      process_table prev ⟨r :: rs⟩ =
        some ⟨extract_table_context prev, [],
              (((r :: rs).map (buildRow [])).filter (fun rd => !rd.cells.isEmpty))⟩) ∧
    (∀ (st : SectionData × List Entry) (e : Element) (td : TableData),
      e.tag = Tag.tbl → extract_section_title e.text = none →
      process_table e.prev e.table = some td → td.rows = [] → step st e = some st) := by
  refine ⟨?_, ?_, ?_, ?_⟩
  · intro prev t hth
    simp [process_table, hth]
  · intro prev r rs hth htd
    simp [process_table, hth, htd]
  · intro prev r rs hth htd
    have htd2 : tdCellsOf r = [] := by simpa using htd
    simp [process_table, hth, htd, htd2]
  · intro st e td htag hsec hpt hrows
    by_cases h1 : (pyStrip e.text).isEmpty
    · simp [step, h1]
    · simp [step, h1, hsec, htag, hpt, hrows]

/-- C6 witness: a table with a `th` header and one blank data row goes through
the explicit-header rule (a) and, having no surviving rows, leaves the parse
state unchanged (d); a `th`-free table with a `td` first row goes through the
first-row fallback (b); a `th`-free table whose first row has no `td` keeps
all rows with empty headers (c). -/
theorem C6_amended_headers_wit :
    process_table [] ⟨[[⟨true, "H"⟩], [⟨false, "  "⟩]]⟩ = some ⟨"", ["H"], []⟩ ∧
      process_table [] ⟨[[⟨false, "H1"⟩], [⟨false, "a"⟩]]⟩ =
        some ⟨"", ["H1"], [⟨[⟨"a", some "H1"⟩]⟩]⟩ ∧
      process_table [] ⟨[[], [⟨false, "a"⟩]]⟩ = some ⟨"", [], [⟨[⟨"a", none⟩]⟩]⟩ ∧
      step (⟨"Part I", "", []⟩, [])
          ⟨Tag.tbl, "t", ⟨[[⟨true, "H"⟩], [⟨false, "  "⟩]]⟩, []⟩ =
        some (⟨"Part I", "", []⟩, []) :=
  ⟨(C6_amended_headers.1 [] ⟨[[⟨true, "H"⟩], [⟨false, "  "⟩]]⟩ (by decide)).trans (by decide),
   (C6_amended_headers.2.1 [] [⟨false, "H1"⟩] [[⟨false, "a"⟩]]
     (by decide) (by decide)).trans (by decide),
   (C6_amended_headers.2.2.1 [] [] [[⟨false, "a"⟩]] (by decide) (by decide)).trans (by decide),
   C6_amended_headers.2.2.2 (⟨"Part I", "", []⟩, [])
     ⟨Tag.tbl, "t", ⟨[[⟨true, "H"⟩], [⟨false, "  "⟩]]⟩, []⟩ ⟨"", ["H"], []⟩
     rfl (by decide) (by decide) rfl⟩

/-! ## Claim C7 -/

/-- A string whose `isEmpty` test is false is not the empty string. -/
theorem ne_empty_of_isEmpty_false {s : String} (h : s.isEmpty = false) : s ≠ "" := by
  intro he
  subst he
  exact absurd h (by decide)

/-- Specification of the cell loop: every produced cell comes from a source
`td` cell at some original index `j`, has that cell's non-empty stripped text
as value, and is paired with `header_texts[i + j]` positionally. -/
theorem pairCells_spec (hs : List String) :
    ∀ (tds : List HtmlCell) (i : Nat) (c : CellData), c ∈ pairCells hs i tds →
      c.value ≠ "" ∧ ∃ (j : Nat) (cell : HtmlCell), tds.get? j = some cell ∧
        c.value = pyStrip cell.text ∧ c.header = hs.get? (i + j)
  | [], i, c, h => by simp [pairCells] at h
  | cell0 :: rest, i, c, h => by
      simp only [pairCells] at h
      by_cases hv : (pyStrip cell0.text).isEmpty
      · rw [if_pos hv] at h
        obtain ⟨hne, j, cell, hget, hval, hhd⟩ := pairCells_spec hs rest (i + 1) c h
        exact ⟨hne, j + 1, cell, by simpa using hget, hval,
          by simpa [Nat.add_assoc, Nat.add_comm 1 j] using hhd⟩
      · rw [if_neg hv] at h
        rcases List.mem_cons.mp h with hc | hc
        · subst hc
          refine ⟨ne_empty_of_isEmpty_false (by simpa using hv), 0, cell0, rfl, rfl, ?_⟩
          simp
        · obtain ⟨hne, j, cell, hget, hval, hhd⟩ := pairCells_spec hs rest (i + 1) c hc
          exact ⟨hne, j + 1, cell, by simpa using hget, hval,
            by simpa [Nat.add_assoc, Nat.add_comm 1 j] using hhd⟩

/-- C7: every row of a produced table record has at least one cell, every
cell's value is the non-empty stripped text of some source `td` cell, and the
cell is paired with `headers[j]` at its original index `j` (`List.get?`
returns `none` exactly when `j` is out of the headers' range). -/
theorem C7_row_invariant (prev : List (Tag × String)) (t : HtmlTable) (td : TableData)
    (h : process_table prev t = some td) :
    ∀ r ∈ td.rows, r.cells ≠ [] ∧
      ∀ c ∈ r.cells, c.value ≠ "" ∧
        ∃ (src : List HtmlCell) (j : Nat) (cell : HtmlCell),
          src ∈ t.trs ∧ (tdCellsOf src).get? j = some cell ∧
          c.value = pyStrip cell.text ∧ c.header = td.headers.get? j := by
  unfold process_table at h
  rcases hc : (if (thCells t).isEmpty then (t.trs.head?).map tdCellsOf
      else some (thCells t)) with _ | hcs
  · rw [hc] at h
    exact absurd h (by simp)
  · rw [hc] at h
    dsimp only at h
    injection h with h2
    subst h2
    intro r hr
    dsimp only at hr ⊢
    have hsub : (if hcs.isEmpty then t.trs else t.trs.drop 1) ⊆ t.trs := by
      split
      · exact fun x hx => hx
      · exact List.drop_subset _ _
    rcases List.mem_filter.mp hr with ⟨hmap, hne⟩
    rcases List.mem_map.mp hmap with ⟨src, hsrc, hbuild⟩
    subst hbuild
    refine ⟨by simpa using hne, ?_⟩
    intro c hcmem
    have hpc := pairCells_spec (hcs.map (fun c => pyStrip c.text)) (tdCellsOf src) 0 c
      (by simpa [buildRow] using hcmem)
    obtain ⟨hne2, j, cell, hget, hval, hhd⟩ := hpc
    exact ⟨hne2, src, j, cell, hsub hsrc, hget, hval, by simpa using hhd⟩

/-- C7 witness: in the spec's example table (`th` headers `Item`, `Amount`,
one data row `Wages`, `50,000`), the produced row is non-empty and its first
cell satisfies the invariant. -/
theorem C7_row_invariant_wit :
    (⟨[⟨"Wages", some "Item"⟩, ⟨"50,000", some "Amount"⟩]⟩ : RowData).cells ≠ [] ∧
      ((⟨"Wages", some "Item"⟩ : CellData).value ≠ "" ∧
        ∃ (src : List HtmlCell) (j : Nat) (cell : HtmlCell),
          src ∈ (⟨[[⟨true, "Item"⟩, ⟨true, "Amount"⟩],
                   [⟨false, "Wages"⟩, ⟨false, "50,000"⟩]]⟩ : HtmlTable).trs ∧
          (tdCellsOf src).get? j = some cell ∧
          (⟨"Wages", some "Item"⟩ : CellData).value = pyStrip cell.text ∧
          (⟨"Wages", some "Item"⟩ : CellData).header =
            (⟨"", ["Item", "Amount"],
              [⟨[⟨"Wages", some "Item"⟩, ⟨"50,000", some "Amount"⟩]⟩]⟩
                : TableData).headers.get? j) :=
  have h := C7_row_invariant []
    ⟨[[⟨true, "Item"⟩, ⟨true, "Amount"⟩], [⟨false, "Wages"⟩, ⟨false, "50,000"⟩]]⟩
    ⟨"", ["Item", "Amount"], [⟨[⟨"Wages", some "Item"⟩, ⟨"50,000", some "Amount"⟩]⟩]⟩
    (by decide)
  have h2 := h ⟨[⟨"Wages", some "Item"⟩, ⟨"50,000", some "Amount"⟩]⟩
    (List.mem_singleton_self _)
  ⟨h2.1, h2.2 ⟨"Wages", some "Item"⟩ (List.mem_cons_self _ _)⟩

/-! ## Claim C8 -/

/-- Flattened counts add over concatenation. -/
theorem docFieldCount_append (a b : List Entry) :
    docFieldCount (a ++ b) = docFieldCount a + docFieldCount b := by
  simp [docFieldCount]

/-- Each processed element adds at most one to the flattened count (counting
the in-progress section's fields as part of the total). -/
theorem step_count (st st2 : SectionData × List Entry) (e : Element)
    (h : step st e = some st2) :
    docFieldCount st2.2 + st2.1.fields.length ≤
      docFieldCount st.2 + st.1.fields.length + 1 := by
  unfold step at h
  by_cases h1 : (pyStrip e.text).isEmpty = true
  · rw [if_pos h1] at h
    injection h with h2
    subst h2
    omega
  · rw [if_neg h1] at h
    cases hsec : extract_section_title e.text with
    | some ts =>
        obtain ⟨ti, su⟩ := ts
        rw [hsec] at h
        dsimp only at h
        injection h with h2
        subst h2
        dsimp only
        by_cases hk : keepSection st.1 = true
        · rw [if_pos hk, docFieldCount_append]
          simp only [docFieldCount, List.map_cons, List.map_nil, List.sum_cons, List.sum_nil,
            entryFieldCount, List.length_nil]
          omega
        · rw [if_neg hk]
          simp only [List.length_nil]
          omega
    | none =>
        rw [hsec] at h
        dsimp only at h
        by_cases htag : e.tag = Tag.tbl
        · rw [if_pos htag] at h
          cases hpt : process_table e.prev e.table with
          | none => rw [hpt] at h; exact absurd h (by simp)
          | some td =>
              rw [hpt] at h
              dsimp only at h
              by_cases hr : td.rows.isEmpty = true
              · rw [if_pos hr] at h
                injection h with h2
                subst h2
                omega
              · rw [if_neg hr] at h
                injection h with h2
                subst h2
                dsimp only
                simp only [List.length_append, List.length_cons, List.length_nil]
                omega
        · rw [if_neg htag] at h
          cases hff : process_form_field e.text with
          | none =>
              rw [hff] at h
              injection h with h2
              subst h2
              omega
          | some f =>
              rw [hff] at h
              injection h with h2
              subst h2
              dsimp only
              simp only [List.length_append, List.length_cons, List.length_nil]
              omega

/-- The loop adds at most the number of processed elements. -/
theorem runElems_count :
    ∀ (l : List Element) (st st' : SectionData × List Entry),
    runElems st l = some st' →
    docFieldCount st'.2 + st'.1.fields.length ≤
      docFieldCount st.2 + st.1.fields.length + l.length
  | [], st, st', h => by
      simp only [runElems] at h
      injection h with h2
      subst h2
      simp
  | e :: rest, st, st', h => by
      simp only [runElems] at h
      cases hs : step st e with
      | none => rw [hs] at h; exact absurd h (by simp)
      | some st2 =>
          rw [hs] at h
          have h1 := step_count st st2 e hs
          have h2 := runElems_count rest st2 st' h
          simp only [List.length_cons]
          omega

/-- C8: the flattened count of fields and tables in the returned document is
at most the number of block elements with non-empty stripped text in the
input. -/
theorem C8_non_inflation (els : List Element) (doc : List Entry)
    (h : parse_html els [] = some doc) : docFieldCount doc ≤ nonEmptyCount els := by
  unfold parse_html at h
  dsimp only at h
  cases hr : runElems (⟨"Part I", "", []⟩, ([] : List Entry))
      (els.filter (fun e => !(pyStrip e.text).isEmpty)) with
  | none => rw [hr] at h; exact absurd h (by simp)
  | some p =>
      rw [hr] at h
      obtain ⟨cur, out⟩ := p
      have hc := runElems_count _ _ _ hr
      simp only [docFieldCount, List.map_nil, List.sum_nil, List.length_nil,
        Nat.zero_add] at hc
      injection h with h2
      subst h2
      by_cases hk : keepSection cur = true
      · rw [if_pos hk, docFieldCount_append]
        simp only [docFieldCount, nonEmptyCount, List.map_cons, List.map_nil, List.sum_cons,
          List.sum_nil, entryFieldCount]
        omega
      · rw [if_neg hk]
        simp only [docFieldCount, nonEmptyCount]
        omega

/-- C8 witness at a concrete two-element input. -/
theorem C8_non_inflation_wit :
    docFieldCount [Entry.sect ⟨"Part I", "",
        [FieldEntry.formField ⟨"1", "Pay 100", some "100", none⟩]⟩] ≤
      nonEmptyCount [⟨Tag.p, "1. Pay 100", ⟨[]⟩, []⟩, ⟨Tag.span, "noise", ⟨[]⟩, []⟩] :=
  C8_non_inflation [⟨Tag.p, "1. Pay 100", ⟨[]⟩, []⟩, ⟨Tag.span, "noise", ⟨[]⟩, []⟩]
    [Entry.sect ⟨"Part I", "", [FieldEntry.formField ⟨"1", "Pay 100", some "100", none⟩]⟩]
    (by decide)

/-! ## Claim C9 -/

/-- C9, counterexample: a form field encountered before any section-title
header does *not* appear as a bare top-level entry: the parse of the single
element `"1. Pay 100"` wraps the field inside the synthetic default section
`Part I`. -/
theorem C9_counterexample :
    parse_html [⟨Tag.div, "1. Pay 100", ⟨[]⟩, []⟩] [] =
      some [Entry.sect ⟨"Part I", "", [FieldEntry.formField ⟨"1", "Pay 100", some "100", none⟩]⟩] := by
  decide

/-- A step on an element that is not a section title keeps the accumulated
output and the current section's title and subtitle. -/
theorem step_no_section (st st2 : SectionData × List Entry) (e : Element)
    (hsec : extract_section_title e.text = none) (h : step st e = some st2) :
    st2.2 = st.2 ∧ st2.1.title = st.1.title ∧ st2.1.subtitle = st.1.subtitle := by
  unfold step at h
  by_cases h1 : (pyStrip e.text).isEmpty = true
  · rw [if_pos h1] at h
    injection h with h2
    subst h2
    exact ⟨rfl, rfl, rfl⟩
  · rw [if_neg h1, hsec] at h
    dsimp only at h
    by_cases htag : e.tag = Tag.tbl
    · rw [if_pos htag] at h
      cases hpt : process_table e.prev e.table with
      | none => rw [hpt] at h; exact absurd h (by simp)
      | some td =>
          rw [hpt] at h
          dsimp only at h
          by_cases hr : td.rows.isEmpty = true
          · rw [if_pos hr] at h
            injection h with h2
            subst h2
            exact ⟨rfl, rfl, rfl⟩
          · rw [if_neg hr] at h
            injection h with h2
            subst h2
            exact ⟨rfl, rfl, rfl⟩
    · rw [if_neg htag] at h
      cases hff : process_form_field e.text with
      | none =>
          rw [hff] at h
          injection h with h2
          subst h2
          exact ⟨rfl, rfl, rfl⟩
      | some f =>
          rw [hff] at h
          injection h with h2
          subst h2
          exact ⟨rfl, rfl, rfl⟩

/-- The loop over section-title-free elements keeps the accumulated output
and the current section's title and subtitle. -/
theorem runElems_no_section :
    ∀ (l : List Element) (st st' : SectionData × List Entry),
    (∀ e ∈ l, extract_section_title e.text = none) →
    runElems st l = some st' →
    st'.2 = st.2 ∧ st'.1.title = st.1.title ∧ st'.1.subtitle = st.1.subtitle
  | [], st, st', _, h => by
      simp only [runElems] at h
      injection h with h2
      subst h2
      exact ⟨rfl, rfl, rfl⟩
  | e :: rest, st, st', hns, h => by
      simp only [runElems] at h
      cases hs : step st e with
      | none => rw [hs] at h; exact absurd h (by simp)
      | some st2 =>
          rw [hs] at h
          have h1 := step_no_section st st2 e (hns e (List.mem_cons_self e rest)) hs
          have h2 := runElems_no_section rest st2 st'
            (fun x hx => hns x (List.mem_cons_of_mem e hx)) h
          exact ⟨h2.1.trans h1.1, h2.2.1.trans h1.2.1, h2.2.2.trans h1.2.2⟩

/-- C9, amended: on a fresh parser, fields and tables encountered before any
section-title header are folded into the synthetic default section
`Part I` (with empty subtitle); if any were collected the document is exactly
that one section, otherwise it is empty — never a bare top-level entry. -/
theorem C9_amended_default_section (els : List Element) (doc : List Entry)
    (hns : ∀ e ∈ els, extract_section_title e.text = none)
    (h : parse_html els [] = some doc) :
    doc = [] ∨ ∃ fs, fs ≠ [] ∧ doc = [Entry.sect ⟨"Part I", "", fs⟩] := by
  unfold parse_html at h
  dsimp only at h
  cases hr : runElems (⟨"Part I", "", []⟩, ([] : List Entry))
      (els.filter (fun e => !(pyStrip e.text).isEmpty)) with
  | none => rw [hr] at h; exact absurd h (by simp)
  | some p =>
      rw [hr] at h
      obtain ⟨cur, out⟩ := p
      have hinv := runElems_no_section _ _ _
        (fun x hx => hns x (List.mem_of_mem_filter hx)) hr
      obtain ⟨hout, hti, hsu⟩ := hinv
      dsimp only at hout hti hsu
      subst hout
      injection h with h2
      subst h2
      have hcur : cur = ⟨"Part I", "", cur.fields⟩ := by
        cases cur
        simp_all
      by_cases hf : cur.fields = []
      · left
        have : keepSection cur = false := by
          rw [hcur]
          simp [keepSection, hf]
        rw [if_neg (by simp [this])]
      · right
        refine ⟨cur.fields, hf, ?_⟩
        have : keepSection cur = true := by
          rw [hcur]
          simp [keepSection, hf]
        rw [if_pos this, hcur]
        rfl

/-- C9 witness: one field element and no section header yield the one-section
document form. -/
theorem C9_amended_default_section_wit :
    ([Entry.sect ⟨"Part I", "", [FieldEntry.formField ⟨"1", "Pay 100", some "100", none⟩]⟩]
        : List Entry) = [] ∨
      ∃ fs, fs ≠ [] ∧
        ([Entry.sect ⟨"Part I", "", [FieldEntry.formField ⟨"1", "Pay 100", some "100", none⟩]⟩]
            : List Entry) = [Entry.sect ⟨"Part I", "", fs⟩] :=
  C9_amended_default_section [⟨Tag.p, "1. Pay 100", ⟨[]⟩, []⟩]
    [Entry.sect ⟨"Part I", "", [FieldEntry.formField ⟨"1", "Pay 100", some "100", none⟩]⟩]
    (by decide) (by decide)

/-! ## Claim C10 -/

/-- Every entry the loop adds to the accumulated output is a section. -/
theorem runElems_sections :
    ∀ (l : List Element) (st st' : SectionData × List Entry),
    runElems st l = some st' →
    ∀ ent ∈ st'.2, (∃ s, ent = Entry.sect s) ∨ ent ∈ st.2
  | [], st, st', h => by
      simp only [runElems] at h
      injection h with h2
      subst h2
      exact fun ent hm => Or.inr hm
  | e :: rest, st, st', h => by
      simp only [runElems] at h
      cases hs : step st e with
      | none => rw [hs] at h; exact absurd h (by simp)
      | some st2 =>
          rw [hs] at h
          intro ent hm
          rcases runElems_sections rest st2 st' h ent hm with hl | hmem2
          · exact Or.inl hl
          · -- step appends at most one section entry
            unfold step at hs
            by_cases h1 : (pyStrip e.text).isEmpty = true
            · rw [if_pos h1] at hs
              injection hs with h2
              subst h2
              exact Or.inr hmem2
            · rw [if_neg h1] at hs
              cases hsec : extract_section_title e.text with
              | some ts =>
                  obtain ⟨ti, su⟩ := ts
                  rw [hsec] at hs
                  dsimp only at hs
                  injection hs with h2
                  subst h2
                  dsimp only at hmem2
                  by_cases hk : keepSection st.1 = true
                  · rw [if_pos hk] at hmem2
                    rcases List.mem_append.mp hmem2 with hm2 | hm2
                    · exact Or.inr hm2
                    · exact Or.inl ⟨st.1, List.mem_singleton.mp hm2⟩
                  · rw [if_neg hk] at hmem2
                    exact Or.inr hmem2
              | none =>
                  rw [hsec] at hs
                  dsimp only at hs
                  by_cases htag : e.tag = Tag.tbl
                  · rw [if_pos htag] at hs
                    cases hpt : process_table e.prev e.table with
                    | none => rw [hpt] at hs; exact absurd hs (by simp)
                    | some td =>
                        rw [hpt] at hs
                        dsimp only at hs
                        by_cases hrw : td.rows.isEmpty = true
                        · rw [if_pos hrw] at hs
                          injection hs with h2
                          subst h2
                          exact Or.inr hmem2
                        · rw [if_neg hrw] at hs
                          injection hs with h2
                          subst h2
                          exact Or.inr hmem2
                  · rw [if_neg htag] at hs
                    cases hff : process_form_field e.text with
                    | none =>
                        rw [hff] at hs
                        injection hs with h2
                        subst h2
                        exact Or.inr hmem2
                    | some f =>
                        rw [hff] at hs
                        injection hs with h2
                        subst h2
                        exact Or.inr hmem2

/-- C10: on a fresh parser every top-level entry of the returned document is
a `Section` (never a bare field, table, key/value pair, amount or
identifier), and any element that is not a section title, not a table, and
not matched by `process_form_field` — a colon pair without a leading number,
a bare amount, a bare SSN, unclassified text — leaves the parse state
unchanged, i.e. is silently omitted. -/
theorem C10_sections_only :
    (∀ (els : List Element) (doc : List Entry), parse_html els [] = some doc →
      ∀ ent ∈ doc, ∃ s, ent = Entry.sect s) ∧
    (∀ (st : SectionData × List Entry) (e : Element),
      extract_section_title e.text = none → e.tag ≠ Tag.tbl →
      process_form_field e.text = none → step st e = some st) := by
  constructor
  · intro els doc h ent hm
    unfold parse_html at h
    dsimp only at h
    cases hr : runElems (⟨"Part I", "", []⟩, ([] : List Entry))
        (els.filter (fun e => !(pyStrip e.text).isEmpty)) with
    | none => rw [hr] at h; exact absurd h (by simp)
    | some p =>
        rw [hr] at h
        obtain ⟨cur, out⟩ := p
        injection h with h2
        subst h2
        have hsec := runElems_sections _ _ _ hr
        by_cases hk : keepSection cur = true
        · rw [if_pos hk] at hm
          rcases List.mem_append.mp hm with hm2 | hm2
          · rcases hsec ent hm2 with hl | hmem0
            · exact hl
            · exact absurd hmem0 (by simp)
          · exact ⟨cur, List.mem_singleton.mp hm2⟩
        · rw [if_neg hk] at hm
          rcases hsec ent hm with hl | hmem0
          · exact hl
          · exact absurd hmem0 (by simp)
  · intro st e hsec htag hff
    by_cases h1 : (pyStrip e.text).isEmpty = true
    · simp [step, h1]
    · simp [step, h1, hsec, htag, hff]

/-- C10 witness: a parsed one-field document has only section entries, and a
plain key/value element (`"Name: John"`) is silently omitted by a step. -/
theorem C10_sections_only_wit :
    (∃ s, (Entry.sect ⟨"Part I", "", [FieldEntry.formField ⟨"1", "Pay 100", some "100", none⟩]⟩
        : Entry) = Entry.sect s) ∧
      step (⟨"Part I", "", []⟩, []) ⟨Tag.p, "Name: John", ⟨[]⟩, []⟩ =
        some (⟨"Part I", "", []⟩, []) :=
  ⟨C10_sections_only.1 [⟨Tag.p, "1. Pay 100", ⟨[]⟩, []⟩]
      [Entry.sect ⟨"Part I", "", [FieldEntry.formField ⟨"1", "Pay 100", some "100", none⟩]⟩]
      (by decide) _ (List.mem_singleton_self _),
   C10_sections_only.2 (⟨"Part I", "", []⟩, []) ⟨Tag.p, "Name: John", ⟨[]⟩, []⟩
      (by decide) (by decide) (by decide)⟩
